import Mathlib

/-!
Verification development for the boids simulation core (`src/boids.rs` of
kvietcong/rusty-boids).

Modelling conventions, applied uniformly:

* 2D float vectors (`Vec2` of `glam`/`bevy`) are modelled as pairs of
  rationals; floating-point arithmetic is modelled as exact rational
  arithmetic.
* Rust `as i8` casts of floats are modelled faithfully as truncation toward
  zero followed by saturation to the interval `[-128, 127]` (the defined
  semantics of Rust float-to-integer casts).  `i8` addition is modelled as
  two's-complement wrap-around, the release-mode semantics of `+` on `i8`
  (debug builds would panic on overflow instead; every claim settled below
  is insensitive to this choice, since the overflow-free regime is handled
  by explicit hypotheses and the counterexamples avoid overflowing adds).
* `bevy` `HashMap`s are modelled as association lists (first match wins,
  insertion replaces the binding of an existing key) and `HashSet`s as
  duplicate-free lists; the claims below only depend on the key/value and
  membership semantics of these containers, not on iteration order.
* Euclidean distance comparisons `a.distance(b) <= t` are modelled as
  `0 ≤ t ∧ dist²(a,b) ≤ t²`, which is equivalent over the reals, and the
  strict comparison of two distances as the comparison of their squares.
* The argument of CPU float `normalize` is irrational in general, so emitted
  `ApplyForceEvent`s record the vector *before* normalization.  `normalize`
  only rescales a nonzero vector by a positive factor, and it is undefined
  (NaN components) on the zero vector, so a recorded zero vector marks
  exactly the degenerate normalizations.
-/

/-- Two-dimensional rational vector standing for a `Vec2` of 32-bit floats. -/
abbrev Vec2 : Type := ℚ × ℚ

/-- Squared Euclidean distance between two points. -/
def sqDist (u v : Vec2) : ℚ :=
  (u.1 - v.1) * (u.1 - v.1) + (u.2 - v.2) * (u.2 - v.2)

/-- Model of the float comparison `u.distance(v) <= t`: equivalent to
`0 ≤ t ∧ dist²(u,v) ≤ t²` since the distance is the nonnegative square root. -/
def distLE (u v : Vec2) (t : ℚ) : Bool :=
  decide (0 ≤ t) && decide (sqDist u v ≤ t * t)

/-- Truncation of a rational toward zero, the rounding used by Rust float to
integer casts. -/
def truncQ (q : ℚ) : ℤ :=
  if 0 ≤ q then ⌊q⌋ else ⌈q⌉

/-- Saturation of an integer into the `i8` range, the clamping used by Rust
float to integer casts. -/
def satI8 (z : ℤ) : ℤ :=
  max (-128) (min 127 z)

/-- Two's-complement wrap-around of an integer into the `i8` range, the
release-mode semantics of `i8` addition. -/
def wrap8 (z : ℤ) : ℤ :=
  (z + 128) % 256 - 128

/-- Inclusive integer range `a..=b` as a list. -/
def intRange (a b : ℤ) : List ℤ :=
  (List.range (b + 1 - a).toNat).map (fun (n : ℕ) => a + (n : ℤ))

/-- Concatenation of the images of a list under a list-valued function; used
to model loops that keep extending an accumulator list. -/
def listJoinMap (f : α → List β) : List α → List β
  | [] => []
  | x :: xs => f x ++ listJoinMap f xs

/-- First value bound to a key in an association list, the lookup semantics
of the `HashMap`s in the source. -/
def alistFind [DecidableEq α] : List (α × β) → α → Option β
  | [], _ => none
  | (k, v) :: rest, a => if k = a then some v else alistFind rest a

/-- Insertion into an association list: replaces the binding of an existing
key, otherwise appends a new binding; the `HashMap::insert` semantics. -/
def alistInsert [DecidableEq α] : List (α × β) → α → β → List (α × β)
  | [], a, b => [(a, b)]
  | (k, v) :: rest, a, b =>
    if k = a then (a, b) :: rest else (k, v) :: alistInsert rest a b

/-- Removal of a key from an association list, the `HashMap::remove`
semantics (on lists with duplicate-free keys). -/
def alistErase [DecidableEq α] : List (α × β) → α → List (α × β)
  | [], _ => []
  | (k, v) :: rest, a => if k = a then rest else (k, v) :: alistErase rest a

/-- Insertion into a set modelled as a duplicate-free list, the
`HashSet::insert` semantics. -/
def setInsert (s : List ℕ) (e : ℕ) : List ℕ :=
  if e ∈ s then s else e :: s

/-- Removal from a set modelled as a duplicate-free list, the
`HashSet::remove` semantics. -/
def setErase : List ℕ → ℕ → List ℕ
  | [], _ => []
  | x :: rest, e => if x = e then rest else x :: setErase rest e

/-- The constant `CHUNK_RESOLUTION: usize = 20` of the source. -/
def CHUNK_RESOLUTION : ℕ := 20

/-- Grid row index computed by the source: `(pos.y / CHUNK_RESOLUTION as f32) as i8`. -/
def cellI (pos : Vec2) : ℤ :=
  satI8 (truncQ (pos.2 / (CHUNK_RESOLUTION : ℚ)))

/-- Grid column index computed by the source: `(pos.x / CHUNK_RESOLUTION as f32) as i8`. -/
def cellJ (pos : Vec2) : ℤ :=
  satI8 (truncQ (pos.1 / (CHUNK_RESOLUTION : ℚ)))

/-- Cell coordinate `(i, j)` a position is bucketed into. -/
def cellOf (pos : Vec2) : ℤ × ℤ :=
  (cellI pos, cellJ pos)

/-- Model of the `CacheGrid` resource: `grid: HashMap<(i8, i8), HashSet<Entity>>`
and `associations: HashMap<Entity, (i8, i8)>`.  Entities are natural numbers. -/
structure CacheGrid where
  grid : List ((ℤ × ℤ) × List ℕ)
  associations : List (ℕ × (ℤ × ℤ))
deriving DecidableEq

/-- The `CacheGrid::default()` starting state: both maps empty. -/
def CacheGrid.empty : CacheGrid := ⟨[], []⟩

/-- Insertion of an entity into a grid cell, modelling the source's
"create the cell's set if absent, then insert the entity into it". -/
def gridInsert (grid : List ((ℤ × ℤ) × List ℕ)) (c : ℤ × ℤ) (e : ℕ) :
    List ((ℤ × ℤ) × List ℕ) :=
  alistInsert grid c (setInsert ((alistFind grid c).getD []) e)

/-- Model of `CacheGrid::update_entity`: compute the cell of `pos`; if the
entity is already associated to that cell, do nothing; otherwise remove it
from its old cell (pruning the cell if its set becomes empty), insert it
into the new cell and update the association. -/
def CacheGrid.update_entity (g : CacheGrid) (entity : ℕ) (pos : Vec2) : CacheGrid :=
  let c := cellOf pos
  match alistFind g.associations entity with
  | some oldc =>
    if oldc = c then g
    else
      let grid1 :=
        match alistFind g.grid oldc with
        | some s =>
          if setErase s entity = [] then alistErase g.grid oldc
          else alistInsert g.grid oldc (setErase s entity)
        | none => g.grid
      { grid := gridInsert grid1 c entity
        associations := alistInsert g.associations entity c }
  | none =>
      { grid := gridInsert g.grid c entity
        associations := alistInsert g.associations entity c }

/-- Row/column where the query rectangle of `get_nearby_entities` begins:
`((pos_axis - radius) / CHUNK_RESOLUTION as f32) as i8`. -/
def queryIBegin (p : Vec2) (radius : ℚ) : ℤ :=
  satI8 (truncQ ((p.2 - radius) / (CHUNK_RESOLUTION : ℚ)))

/-- Column where the query rectangle of `get_nearby_entities` begins. -/
def queryJBegin (p : Vec2) (radius : ℚ) : ℤ :=
  satI8 (truncQ ((p.1 - radius) / (CHUNK_RESOLUTION : ℚ)))

/-- Extent of the query rectangle on either axis:
`(radius * 2.0 / CHUNK_RESOLUTION as f32).ceil() as i8` (the source computes
this same expression once per axis). -/
def querySpan (radius : ℚ) : ℤ :=
  satI8 ⌈radius * 2 / (CHUNK_RESOLUTION : ℚ)⌉

/-- Last row of the query rectangle, `i_begin + i_to` on `i8`. -/
def queryIEnd (p : Vec2) (radius : ℚ) : ℤ :=
  wrap8 (queryIBegin p radius + querySpan radius)

/-- Last column of the query rectangle, `j_begin + j_to` on `i8`. -/
def queryJEnd (p : Vec2) (radius : ℚ) : ℤ :=
  wrap8 (queryJBegin p radius + querySpan radius)

/-- Model of `CacheGrid::get_nearby_entities`: union (as list concatenation)
of the contents of every grid cell in the query rectangle. -/
def CacheGrid.get_nearby_entities (g : CacheGrid) (position : Vec2) (radius : ℚ) :
    List ℕ :=
  listJoinMap
    (fun i =>
      listJoinMap (fun j => (alistFind g.grid (i, j)).getD [])
        (intRange (queryJBegin position radius) (queryJEnd position radius)))
    (intRange (queryIBegin position radius) (queryIEnd position radius))

/-- Registration of a finite set of entities at their current positions,
starting from the empty index (the `cache_grid_update_system` pass). -/
def buildGrid (l : List (ℕ × Vec2)) : CacheGrid :=
  l.foldl (fun g ep => g.update_entity ep.1 ep.2) CacheGrid.empty

example : cellOf ((-10 : ℚ), (-10 : ℚ)) = (0, 0) := by with_unfolding_all decide
example : cellOf ((30 : ℚ), (-30 : ℚ)) = (-1, 1) := by with_unfolding_all decide
example : (buildGrid [(0, ((0 : ℚ), (0 : ℚ)))]).get_nearby_entities (0, 0) 0 = [0] := by with_unfolding_all decide

/-- The `CreatureType` species enumeration of the source. -/
inductive CreatureType where
  | A
  | B
  | C
deriving DecidableEq

/-- The per-species `Factors` record of the source.  The cosmetic `color`
field, which the simulation core never reads, is omitted.  The two species
sets are modelled by their membership functions. -/
structure Factors where
  speed : ℚ
  vision : ℚ
  size : Vec2
  cohesion : ℚ
  separation : ℚ
  alignment : ℚ
  collision_avoidance : ℚ
  scare : ℚ
  chase : ℚ
  scared_of : CreatureType → Bool
  will_chase : CreatureType → Bool

/-- One live creature as the force systems see it: its `Entity` id, its
`Direction` component (heading), the `xy` of its `Transform` translation,
its `Sprite`'s `custom_size`, and its `CreatureType` component. -/
structure Creature where
  id : ℕ
  dir : Vec2
  pos : Vec2
  customSize : Option Vec2
  ctype : CreatureType
deriving DecidableEq

/-- The `ApplyForceEvent(Entity, Vec2, f32)` message.  Per the conventions
above, `force` records the vector the source passes to `normalize`. -/
structure ApplyForceEvent where
  entity : ℕ
  force : Vec2
  factor : ℚ
deriving DecidableEq

/-- Lookup of an entity id in the live-creature query, modelling
`creatures.get(entity)` (an `Err` result is modelled by `none`). -/
def creatureGet (world : List Creature) (e : ℕ) : Option Creature :=
  world.find? (fun c => c.id = e)

/-- Model of the per-agent body of `scare_system` (and of the identical body
inside `parallel_scare_system`): for each nearby candidate, skip itself,
skip despawned entities, skip species the agent is not scared of, and emit
a flee intent when the candidate is within vision range. -/
def scareScan (factors : CreatureType → Factors) (world : List Creature)
    (g : CacheGrid) (a : Creature) : List ApplyForceEvent :=
  let fa := factors a.ctype
  listJoinMap
    (fun eb =>
      if eb = a.id then []
      else
        match creatureGet world eb with
        | none => []
        | some b =>
          if fa.scared_of b.ctype = false then []
          else if distLE a.pos b.pos fa.vision then
            [⟨a.id, a.pos - b.pos, fa.scare⟩]
          else [])
    (g.get_nearby_entities a.pos fa.vision)

/-- One step of the closest-target fold of `chase_system`: the tracked state
is `None` or `Some (squared distance, position)`; a later candidate replaces
the tracked one only when strictly closer (`old_distance > distance`). -/
def chaseStep (factors : CreatureType → Factors) (world : List Creature)
    (a : Creature) (ct : Option (ℚ × Vec2)) (eb : ℕ) : Option (ℚ × Vec2) :=
  match creatureGet world eb with
  | none => ct
  | some b =>
    if (factors a.ctype).will_chase b.ctype = false then ct
    else if distLE a.pos b.pos (factors a.ctype).vision then
      match ct with
      | none => some (sqDist a.pos b.pos, b.pos)
      | some (od, op) =>
        if sqDist a.pos b.pos < od then some (sqDist a.pos b.pos, b.pos)
        else some (od, op)
    else ct

/-- Model of the per-agent body of `chase_system` (the sequential variant):
note that, unlike `parallel_chase_system`, this loop does NOT skip the case
`entity_b == entity_a`. -/
def chaseScan (factors : CreatureType → Factors) (world : List Creature)
    (g : CacheGrid) (a : Creature) : List ApplyForceEvent :=
  let fa := factors a.ctype
  match (g.get_nearby_entities a.pos fa.vision).foldl
      (chaseStep factors world a) none with
  | none => []
  | some (_, cp) => [⟨a.id, cp - a.pos, fa.chase⟩]

/-- Model of the per-agent body of `parallel_chase_system`, which skips the
candidate equal to the scanning agent before anything else. -/
def parallelChaseScan (factors : CreatureType → Factors) (world : List Creature)
    (g : CacheGrid) (a : Creature) : List ApplyForceEvent :=
  let fa := factors a.ctype
  match ((g.get_nearby_entities a.pos fa.vision).filter (fun eb => eb ≠ a.id)).foldl
      (chaseStep factors world a) none with
  | none => []
  | some (_, cp) => [⟨a.id, cp - a.pos, fa.chase⟩]

/-- Accumulator of the flocking scan: running sums for cohesion, alignment
and separation, the two neighbor counts, and the collision-avoidance events
already sent. -/
structure FlockState where
  avgPos : Vec2
  avgDir : Vec2
  avgClose : Vec2
  visCount : ℕ
  halfCount : ℕ
  events : List ApplyForceEvent

/-- The initial flocking accumulator (`Vec2::ZERO` sums and zero counts). -/
def FlockState.init : FlockState := ⟨(0, 0), (0, 0), (0, 0), 0, 0, []⟩

/-- Vision-range accumulation of the flocking loop: within `factors.vision`
of the agent, add the candidate's position and heading to the cohesion and
alignment sums and bump the vision count. -/
def flockAccumVision (fa : Factors) (a b : Creature) (st : FlockState) :
    FlockState :=
  if distLE a.pos b.pos fa.vision then
    { st with avgPos := st.avgPos + b.pos, avgDir := st.avgDir + b.dir,
              visCount := st.visCount + 1 }
  else st

/-- Half-vision accumulation of the flocking loop: within `vision / 2.0`,
add the candidate's position to the separation sum and bump the half-vision
count. -/
def flockAccumHalf (fa : Factors) (a b : Creature) (st : FlockState) :
    FlockState :=
  if distLE a.pos b.pos (fa.vision / 2) then
    { st with avgClose := st.avgClose + b.pos, halfCount := st.halfCount + 1 }
  else st

/-- Collision-avoidance emission of the flocking loop: when the agent's
sprite has a `custom_size` (a `None` makes the loop `continue`) and the
candidate is within `size.x * 2.0`, send an intent away from the candidate
immediately. -/
def flockCollision (fa : Factors) (a b : Creature) (st : FlockState) :
    FlockState :=
  match a.customSize with
  | none => st
  | some size =>
    if distLE a.pos b.pos (size.1 * 2) then
      { st with events :=
          st.events ++ [⟨a.id, a.pos - b.pos, fa.collision_avoidance⟩] }
    else st

/-- One candidate step of the loop of `flocking_system` (and of the identical
loop of `parallel_flocking_system`): skip itself and despawned entities, skip
other species, accumulate the vision and half-vision sums, and emit a
collision-avoidance intent when the candidate is within `size.x * 2.0` of the
agent's sprite `custom_size`. -/
def flockStep (factors : CreatureType → Factors) (world : List Creature)
    (a : Creature) (st : FlockState) (eb : ℕ) : FlockState :=
  if eb = a.id then st
  else
    match creatureGet world eb with
    | none => st
    | some b =>
      if a.ctype ≠ b.ctype then st
      else
        flockCollision (factors a.ctype) a b
          (flockAccumHalf (factors a.ctype) a b
            (flockAccumVision (factors a.ctype) a b st))

/-- Division of an accumulated `Vec2` sum by a count, modelling
`average /= count as f32`. -/
def divCount (v : Vec2) (n : ℕ) : Vec2 :=
  (v.1 / (n : ℚ), v.2 / (n : ℚ))

/-- Model of the per-agent body of `flocking_system` (and of the identical
body of `parallel_flocking_system`): run the candidate loop, then emit the
cohesion and alignment intents when the vision count is positive and the
separation intent when the half-vision count is positive. -/
def flockingScan (factors : CreatureType → Factors) (world : List Creature)
    (g : CacheGrid) (a : Creature) : List ApplyForceEvent :=
  let fa := factors a.ctype
  let st := (g.get_nearby_entities a.pos fa.vision).foldl
    (flockStep factors world a) FlockState.init
  let cohesionAlignment :=
    if 0 < st.visCount then
      [⟨a.id, divCount st.avgPos st.visCount - a.pos, fa.cohesion⟩,
       ⟨a.id, divCount st.avgDir st.visCount, fa.alignment⟩]
    else []
  let separation :=
    if 0 < st.halfCount then
      [⟨a.id, a.pos - divCount st.avgClose st.halfCount, fa.separation⟩]
    else []
  st.events ++ cohesionAlignment ++ separation

/-- Model of the body of `wrap_borders_system` for one position: a coordinate
at or beyond an extent is sent just inside the opposite extent (the `1.0`
offset is the epsilon of the source). -/
def wrapBorders (width height : ℚ) (p : Vec2) : Vec2 :=
  (if p.1 ≥ width / 2 then -width / 2 + 1
   else if p.1 ≤ -width / 2 then width / 2 - 1
   else p.1,
   if p.2 ≥ height / 2 then -height / 2 + 1
   else if p.2 ≤ -height / 2 then height / 2 - 1
   else p.2)

/-- Model of `Direction::lerp`: `self.0 = self.0.lerp(other, t).normalize()`.
The linear interpolation `d + t * (other - d)` is exact rational arithmetic;
the trailing `normalize` is an arbitrary rescaling function `norm` passed as
a parameter, since unit-length normalization is irrational (every theorem
below holds for every choice of `norm`). -/
def lerpDir (norm : Vec2 → Vec2) (d other : Vec2) (t : ℚ) : Vec2 :=
  norm (d + t • (other - d))

/-- Model of `apply_force_event_system`: fold the drained events in order;
an event whose target entity is not in the live query is skipped, all other
events update the target's heading by `Direction::lerp` with interpolation
parameter `factor * delta_time`. -/
def applyForceEvents (norm : Vec2 → Vec2) (dt : ℚ)
    (events : List ApplyForceEvent) (world : List Creature) : List Creature :=
  events.foldl
    (fun w ev =>
      w.map fun c =>
        if c.id = ev.entity then
          { c with dir := lerpDir norm c.dir ev.force (ev.factor * dt) }
        else c)
    world

/-! Lemma kit for the list-based container models. -/

theorem mem_listJoinMap {f : α → List β} {l : List α} {b : β} :
    b ∈ listJoinMap f l ↔ ∃ a ∈ l, b ∈ f a := by
  induction l with
  | nil => simp [listJoinMap]
  | cons x xs ih => simp [listJoinMap, ih]

theorem mem_intRange {a b z : ℤ} : z ∈ intRange a b ↔ a ≤ z ∧ z ≤ b := by
  constructor
  · intro h
    simp only [intRange, List.mem_map, List.mem_range] at h
    obtain ⟨n, hn, hz⟩ := h
    omega
  · intro h
    simp only [intRange, List.mem_map, List.mem_range]
    refine ⟨(z - a).toNat, ?_, ?_⟩ <;> omega

theorem alistFind_cons_self [DecidableEq α] (k : α) (v : β) (rest : List (α × β)) :
    alistFind ((k, v) :: rest) k = some v := by
  simp only [alistFind]
  rw [if_pos trivial]

theorem alistFind_cons_ne [DecidableEq α] {k0 k : α} (h : k0 ≠ k) (v0 : β)
    (rest : List (α × β)) : alistFind ((k0, v0) :: rest) k = alistFind rest k := by
  simp only [alistFind]
  rw [if_neg h]

theorem alistInsert_cons_self [DecidableEq α] (k : α) (v0 v : β)
    (rest : List (α × β)) :
    alistInsert ((k, v0) :: rest) k v = (k, v) :: rest := by
  simp only [alistInsert]
  rw [if_pos trivial]

theorem alistInsert_cons_ne [DecidableEq α] {k0 k : α} (h : k0 ≠ k) (v0 v : β)
    (rest : List (α × β)) :
    alistInsert ((k0, v0) :: rest) k v = (k0, v0) :: alistInsert rest k v := by
  simp only [alistInsert]
  rw [if_neg h]

theorem alistErase_cons_self [DecidableEq α] (k : α) (v0 : β)
    (rest : List (α × β)) : alistErase ((k, v0) :: rest) k = rest := by
  simp only [alistErase]
  rw [if_pos trivial]

theorem alistErase_cons_ne [DecidableEq α] {k0 k : α} (h : k0 ≠ k) (v0 : β)
    (rest : List (α × β)) :
    alistErase ((k0, v0) :: rest) k = (k0, v0) :: alistErase rest k := by
  simp only [alistErase]
  rw [if_neg h]

theorem setErase_cons_self (e : ℕ) (rest : List ℕ) :
    setErase (e :: rest) e = rest := by
  simp only [setErase]
  rw [if_pos trivial]

theorem setErase_cons_ne {y e : ℕ} (h : y ≠ e) (rest : List ℕ) :
    setErase (y :: rest) e = y :: setErase rest e := by
  simp only [setErase]
  rw [if_neg h]

theorem alistFind_mem [DecidableEq α] {l : List (α × β)} {k : α} {v : β}
    (h : alistFind l k = some v) : (k, v) ∈ l := by
  induction l with
  | nil => simp [alistFind] at h
  | cons kv rest ih =>
    obtain ⟨k0, v0⟩ := kv
    by_cases hk : k0 = k
    · subst hk
      rw [alistFind_cons_self] at h
      simp only [Option.some_inj] at h
      subst h
      exact List.mem_cons_self _ _
    · rw [alistFind_cons_ne hk] at h
      exact List.mem_cons_of_mem _ (ih h)

/-- Keys of an association list are duplicate-free. -/
def keysNodup (l : List (α × β)) : Prop :=
  (l.map Prod.fst).Nodup

theorem alistFind_insert_self [DecidableEq α] (l : List (α × β)) (k : α) (v : β) :
    alistFind (alistInsert l k v) k = some v := by
  induction l with
  | nil =>
    show alistFind [(k, v)] k = some v
    exact alistFind_cons_self k v []
  | cons kv rest ih =>
    obtain ⟨k0, v0⟩ := kv
    by_cases hk : k0 = k
    · subst hk
      rw [alistInsert_cons_self, alistFind_cons_self]
    · rw [alistInsert_cons_ne hk, alistFind_cons_ne hk, ih]

theorem alistFind_insert_ne [DecidableEq α] (l : List (α × β)) {k k' : α} (v : β)
    (h : k' ≠ k) : alistFind (alistInsert l k v) k' = alistFind l k' := by
  have hks : k ≠ k' := Ne.symm h
  induction l with
  | nil =>
    show alistFind [(k, v)] k' = alistFind [] k'
    rw [alistFind_cons_ne hks]
  | cons kv rest ih =>
    obtain ⟨k0, v0⟩ := kv
    by_cases hk : k0 = k
    · subst hk
      rw [alistInsert_cons_self, alistFind_cons_ne hks, alistFind_cons_ne hks]
    · rw [alistInsert_cons_ne hk]
      by_cases hk' : k0 = k'
      · subst hk'
        rw [alistFind_cons_self, alistFind_cons_self]
      · rw [alistFind_cons_ne hk', alistFind_cons_ne hk', ih]

/-- Characterization of the keys of an association list after insertion. -/
theorem keys_alistInsert [DecidableEq α] (l : List (α × β)) (k : α) (v : β)
    (x : α) :
    x ∈ (alistInsert l k v).map Prod.fst ↔ x = k ∨ x ∈ l.map Prod.fst := by
  induction l with
  | nil => simp [alistInsert]
  | cons kv rest ih =>
    obtain ⟨k0, v0⟩ := kv
    by_cases hk : k0 = k
    · subst hk
      rw [alistInsert_cons_self]
      simp only [List.map_cons, List.mem_cons]
      tauto
    · rw [alistInsert_cons_ne hk]
      simp only [List.map_cons, List.mem_cons, ih]
      tauto

theorem keysNodup_alistInsert [DecidableEq α] {l : List (α × β)} (k : α) (v : β)
    (h : keysNodup l) : keysNodup (alistInsert l k v) := by
  induction l with
  | nil => simp [alistInsert, keysNodup]
  | cons kv rest ih =>
    obtain ⟨k0, v0⟩ := kv
    simp only [keysNodup, List.map_cons, List.nodup_cons] at h
    by_cases hk : k0 = k
    · subst hk
      rw [alistInsert_cons_self]
      simp only [keysNodup, List.map_cons, List.nodup_cons]
      exact h
    · rw [alistInsert_cons_ne hk]
      simp only [keysNodup, List.map_cons, List.nodup_cons]
      refine ⟨fun hmem => ?_, ih h.2⟩
      rcases (keys_alistInsert rest k v k0).mp hmem with h' | h'
      · exact hk h'
      · exact h.1 h'

theorem mem_alistInsert [DecidableEq α] {l : List (α × β)} (hl : keysNodup l)
    {cs : α × β} {k : α} {v : β} :
    cs ∈ alistInsert l k v ↔ cs = (k, v) ∨ (cs ∈ l ∧ cs.1 ≠ k) := by
  induction l with
  | nil =>
    simp only [alistInsert, List.mem_singleton, List.not_mem_nil, false_and,
      or_false]
  | cons kv rest ih =>
    obtain ⟨k0, v0⟩ := kv
    simp only [keysNodup, List.map_cons, List.nodup_cons] at hl
    have ih' := ih hl.2
    by_cases hk : k0 = k
    · subst hk
      have hkeys : ∀ w : β, (k0, w) ∈ rest → False := fun w hw =>
        hl.1 (List.mem_map_of_mem Prod.fst hw)
      rw [alistInsert_cons_self]
      simp only [List.mem_cons]
      constructor
      · rintro (rfl | h)
        · exact Or.inl rfl
        · refine Or.inr ⟨Or.inr h, fun hcs => ?_⟩
          obtain ⟨x, y⟩ := cs
          simp only at hcs
          subst hcs
          exact hkeys y h
      · rintro (rfl | ⟨hmem, hne⟩)
        · exact Or.inl rfl
        · rcases hmem with h | h
          · rw [h] at hne
            exact absurd rfl hne
          · exact Or.inr h
    · rw [alistInsert_cons_ne hk]
      simp only [List.mem_cons, ih']
      constructor
      · rintro (rfl | h | h)
        · exact Or.inr ⟨Or.inl rfl, hk⟩
        · exact Or.inl h
        · exact Or.inr ⟨Or.inr h.1, h.2⟩
      · rintro (rfl | ⟨hmem, hne⟩)
        · exact Or.inr (Or.inl rfl)
        · rcases hmem with h | h
          · exact Or.inl h
          · exact Or.inr (Or.inr ⟨h, hne⟩)

theorem alistFind_erase_ne [DecidableEq α] (l : List (α × β)) {k k' : α}
    (h : k' ≠ k) : alistFind (alistErase l k) k' = alistFind l k' := by
  have hks : k ≠ k' := Ne.symm h
  induction l with
  | nil => simp [alistErase]
  | cons kv rest ih =>
    obtain ⟨k0, v0⟩ := kv
    by_cases hk : k0 = k
    · subst hk
      rw [alistErase_cons_self, alistFind_cons_ne hks]
    · rw [alistErase_cons_ne hk]
      by_cases hk' : k0 = k'
      · subst hk'
        rw [alistFind_cons_self, alistFind_cons_self]
      · rw [alistFind_cons_ne hk', alistFind_cons_ne hk', ih]

theorem mem_alistErase [DecidableEq α] {l : List (α × β)} (hl : keysNodup l)
    {cs : α × β} {k : α} :
    cs ∈ alistErase l k ↔ cs ∈ l ∧ cs.1 ≠ k := by
  induction l with
  | nil => simp [alistErase]
  | cons kv rest ih =>
    obtain ⟨k0, v0⟩ := kv
    simp only [keysNodup, List.map_cons, List.nodup_cons] at hl
    have ih' := ih hl.2
    by_cases hk : k0 = k
    · subst hk
      have hkeys : ∀ w : β, (k0, w) ∈ rest → False := fun w hw =>
        hl.1 (List.mem_map_of_mem Prod.fst hw)
      rw [alistErase_cons_self]
      simp only [List.mem_cons]
      constructor
      · intro h
        refine ⟨Or.inr h, fun hcs => ?_⟩
        obtain ⟨x, y⟩ := cs
        simp only at hcs
        subst hcs
        exact hkeys y h
      · rintro ⟨h | h, hne⟩
        · rw [h] at hne
          exact absurd rfl hne
        · exact h
    · rw [alistErase_cons_ne hk]
      simp only [List.mem_cons, ih']
      constructor
      · rintro (rfl | h)
        · exact ⟨Or.inl rfl, hk⟩
        · exact ⟨Or.inr h.1, h.2⟩
      · rintro ⟨h | h, hne⟩
        · exact Or.inl h
        · exact Or.inr ⟨h, hne⟩

theorem keysNodup_alistErase [DecidableEq α] {l : List (α × β)} (k : α)
    (h : keysNodup l) : keysNodup (alistErase l k) := by
  induction l with
  | nil => simp [alistErase, keysNodup]
  | cons kv rest ih =>
    obtain ⟨k0, v0⟩ := kv
    simp only [keysNodup, List.map_cons, List.nodup_cons] at h
    by_cases hk : k0 = k
    · subst hk
      rw [alistErase_cons_self]
      exact h.2
    · rw [alistErase_cons_ne hk]
      simp only [keysNodup, List.map_cons, List.nodup_cons]
      refine ⟨fun hmem => ?_, ih h.2⟩
      rcases List.mem_map.mp hmem with ⟨cs, hcs, hfst⟩
      exact h.1 (hfst ▸ List.mem_map_of_mem Prod.fst ((mem_alistErase h.2).mp hcs).1)

theorem mem_setInsert {s : List ℕ} {e x : ℕ} :
    x ∈ setInsert s e ↔ x = e ∨ x ∈ s := by
  by_cases h : e ∈ s
  · simp only [setInsert, if_pos h]
    constructor
    · exact Or.inr
    · rintro (rfl | hx)
      · exact h
      · exact hx
  · simp [setInsert, if_neg h]

theorem setInsert_ne_nil (s : List ℕ) (e : ℕ) : setInsert s e ≠ [] := by
  by_cases h : e ∈ s
  · simp only [setInsert, if_pos h]
    intro hnil
    subst hnil
    simp at h
  · simp [setInsert, if_neg h]

theorem nodup_setInsert {s : List ℕ} (e : ℕ) (h : s.Nodup) :
    (setInsert s e).Nodup := by
  by_cases he : e ∈ s
  · simpa [setInsert, if_pos he] using h
  · simp [setInsert, if_neg he, h, he]

theorem mem_setErase {s : List ℕ} (h : s.Nodup) {e x : ℕ} :
    x ∈ setErase s e ↔ x ∈ s ∧ x ≠ e := by
  induction s with
  | nil => simp [setErase]
  | cons y rest ih =>
    simp only [List.nodup_cons] at h
    by_cases hy : y = e
    · subst hy
      rw [setErase_cons_self]
      simp only [List.mem_cons]
      constructor
      · intro hx
        refine ⟨Or.inr hx, fun hxe => ?_⟩
        subst hxe
        exact h.1 hx
      · rintro ⟨h' | h', hne⟩
        · exact absurd h' hne
        · exact h'
    · rw [setErase_cons_ne hy]
      simp only [List.mem_cons, ih h.2]
      constructor
      · rintro (rfl | hx)
        · exact ⟨Or.inl rfl, hy⟩
        · exact ⟨Or.inr hx.1, hx.2⟩
      · rintro ⟨h' | h', hne⟩
        · subst h'
          exact Or.inl rfl
        · exact Or.inr ⟨h', hne⟩

theorem nodup_setErase {s : List ℕ} (e : ℕ) (h : s.Nodup) :
    (setErase s e).Nodup := by
  induction s with
  | nil => simp [setErase]
  | cons y rest ih =>
    simp only [List.nodup_cons] at h
    by_cases hy : y = e
    · subst hy
      rw [setErase_cons_self]
      exact h.2
    · rw [setErase_cons_ne hy]
      simp only [List.nodup_cons]
      refine ⟨fun hmem => ?_, ih h.2⟩
      exact h.1 ((mem_setErase h.2).mp hmem).1

/-! Properties of the spatial index. -/

theorem alistFind_gridInsert_self (grid : List ((ℤ × ℤ) × List ℕ)) (c : ℤ × ℤ)
    (e : ℕ) :
    alistFind (gridInsert grid c e) c
      = some (setInsert ((alistFind grid c).getD []) e) :=
  alistFind_insert_self grid c _

theorem alistFind_gridInsert_ne (grid : List ((ℤ × ℤ) × List ℕ)) {c c' : ℤ × ℤ}
    (e : ℕ) (h : c' ≠ c) :
    alistFind (gridInsert grid c e) c' = alistFind grid c' :=
  alistFind_insert_ne grid _ h

/-- Unfolding equation of `update_entity` for an unregistered entity. -/
theorem update_entity_of_none (g : CacheGrid) (e : ℕ) (pos : Vec2)
    (hfind : alistFind g.associations e = none) :
    g.update_entity e pos
      = ⟨gridInsert g.grid (cellOf pos) e,
         alistInsert g.associations e (cellOf pos)⟩ := by
  unfold CacheGrid.update_entity
  rw [hfind]

/-- Unfolding equation of `update_entity` when the entity is already in the
cell of its new position: the call is a no-op. -/
theorem update_entity_of_same (g : CacheGrid) (e : ℕ) (pos : Vec2)
    (hfind : alistFind g.associations e = some (cellOf pos)) :
    g.update_entity e pos = g := by
  unfold CacheGrid.update_entity
  rw [hfind]
  simp

/-- Unfolding equation of `update_entity` when the entity moves cells and its
old cell is present in the grid. -/
theorem update_entity_of_move (g : CacheGrid) (e : ℕ) (pos : Vec2)
    (oldc : ℤ × ℤ) (s : List ℕ)
    (hfind : alistFind g.associations e = some oldc) (hne : oldc ≠ cellOf pos)
    (hcell : alistFind g.grid oldc = some s) :
    g.update_entity e pos
      = ⟨gridInsert
           (if setErase s e = [] then alistErase g.grid oldc
            else alistInsert g.grid oldc (setErase s e))
           (cellOf pos) e,
         alistInsert g.associations e (cellOf pos)⟩ := by
  unfold CacheGrid.update_entity
  rw [hfind]
  simp only [if_neg hne, hcell]

/-- Unfolding equation of `update_entity` when the entity moves cells but the
old cell is absent from the grid map. -/
theorem update_entity_of_move_missing (g : CacheGrid) (e : ℕ) (pos : Vec2)
    (oldc : ℤ × ℤ)
    (hfind : alistFind g.associations e = some oldc) (hne : oldc ≠ cellOf pos)
    (hcell : alistFind g.grid oldc = none) :
    g.update_entity e pos
      = ⟨gridInsert g.grid (cellOf pos) e,
         alistInsert g.associations e (cellOf pos)⟩ := by
  unfold CacheGrid.update_entity
  rw [hfind]
  simp only [if_neg hne, hcell]

/-- Invariant of the spatial index: grid keys are duplicate-free, no cell is
empty, cell sets are duplicate-free, every entity of a cell is associated to
that cell's coordinate, and every association points to a cell containing
its entity. -/
structure GridInv (g : CacheGrid) : Prop where
  gridNodup : keysNodup g.grid
  cellsNonempty : ∀ cs ∈ g.grid, cs.2 ≠ []
  cellsNodup : ∀ cs ∈ g.grid, cs.2.Nodup
  memAssoc : ∀ cs ∈ g.grid, ∀ x ∈ cs.2, alistFind g.associations x = some cs.1
  assocMem : ∀ e c, alistFind g.associations e = some c →
    ∃ s, alistFind g.grid c = some s ∧ e ∈ s

theorem gridInv_empty : GridInv CacheGrid.empty := by
  constructor <;> simp [CacheGrid.empty, keysNodup, alistFind]

/-- Core step of the invariant preservation: inserting an entity `e`, absent
from every cell of `grid1`, into cell `c`, while pointing its association at
`c`, restores the invariant. -/
theorem gridInv_insert_step (grid1 : List ((ℤ × ℤ) × List ℕ))
    (assoc : List (ℕ × (ℤ × ℤ))) (c : ℤ × ℤ) (e : ℕ)
    (hnodup : keysNodup grid1)
    (hne : ∀ cs ∈ grid1, cs.2 ≠ [])
    (hnd : ∀ cs ∈ grid1, cs.2.Nodup)
    (hma : ∀ cs ∈ grid1, ∀ x ∈ cs.2, alistFind assoc x = some cs.1)
    (hnotin : ∀ cs ∈ grid1, e ∉ cs.2)
    (ham : ∀ x c', x ≠ e → alistFind assoc x = some c' →
      ∃ s, alistFind grid1 c' = some s ∧ x ∈ s) :
    GridInv ⟨gridInsert grid1 c e, alistInsert assoc e c⟩ := by
  constructor
  · exact keysNodup_alistInsert c _ hnodup
  · intro cs hcs
    rcases (mem_alistInsert hnodup).mp hcs with rfl | ⟨hmem, _⟩
    · exact setInsert_ne_nil _ _
    · exact hne cs hmem
  · intro cs hcs
    rcases (mem_alistInsert hnodup).mp hcs with rfl | ⟨hmem, _⟩
    · cases hfind : alistFind grid1 c with
      | none => simp only [hfind, Option.getD_none]; exact nodup_setInsert _ (List.nodup_nil)
      | some s =>
        simp only [hfind, Option.getD_some]
        exact nodup_setInsert _ (hnd (c, s) (alistFind_mem hfind))
    · exact hnd cs hmem
  · intro cs hcs x hx
    rcases (mem_alistInsert hnodup).mp hcs with rfl | ⟨hmem, hkey⟩
    · rcases mem_setInsert.mp hx with rfl | hx0
      · exact alistFind_insert_self assoc x c
      · cases hfind : alistFind grid1 c with
        | none => rw [hfind] at hx0; simp at hx0
        | some s =>
          rw [hfind] at hx0
          simp only [Option.getD_some] at hx0
          have hmem_s : (c, s) ∈ grid1 := alistFind_mem hfind
          have hxe : x ≠ e := fun hxe => hnotin (c, s) hmem_s (hxe ▸ hx0)
          rw [alistFind_insert_ne assoc c hxe]
          exact hma (c, s) hmem_s x hx0
    · have hxe : x ≠ e := fun hxe => hnotin cs hmem (hxe ▸ hx)
      rw [alistFind_insert_ne assoc _ hxe]
      exact hma cs hmem x hx
  · intro x c'' hx
    by_cases hxe : x = e
    · subst hxe
      rw [alistFind_insert_self] at hx
      obtain rfl : c = c'' := by simpa using hx
      refine ⟨setInsert ((alistFind grid1 c).getD []) x, ?_, ?_⟩
      · exact alistFind_gridInsert_self grid1 c x
      · exact mem_setInsert.mpr (Or.inl rfl)
    · rw [alistFind_insert_ne assoc _ hxe] at hx
      obtain ⟨s, hfind, hxs⟩ := ham x c'' hxe hx
      by_cases hc : c'' = c
      · subst hc
        refine ⟨setInsert ((alistFind grid1 c'').getD []) e, ?_, ?_⟩
        · exact alistFind_gridInsert_self grid1 c'' e
        · rw [hfind]
          exact mem_setInsert.mpr (Or.inr hxs)
      · exact ⟨s, by rw [alistFind_gridInsert_ne grid1 e hc]; exact hfind, hxs⟩

/-- The invariant is preserved by every `update_entity` call. -/
theorem gridInv_update (g : CacheGrid) (e : ℕ) (pos : Vec2) (h : GridInv g) :
    GridInv (g.update_entity e pos) := by
  cases hfind : alistFind g.associations e with
  | none =>
    rw [update_entity_of_none g e pos hfind]
    refine gridInv_insert_step _ _ _ _ h.gridNodup h.cellsNonempty h.cellsNodup
      h.memAssoc ?_ ?_
    · intro cs hcs hecs
      have := h.memAssoc cs hcs e hecs
      rw [hfind] at this
      exact Option.noConfusion this
    · intro x c' _ hx
      exact h.assocMem x c' hx
  | some oldc =>
    by_cases heq : oldc = cellOf pos
    · subst heq
      rw [update_entity_of_same g e pos hfind]
      exact h
    · cases hcell : alistFind g.grid oldc with
      | none =>
        obtain ⟨s, hs, _⟩ := h.assocMem e oldc hfind
        rw [hcell] at hs
        exact Option.noConfusion hs
      | some s =>
        rw [update_entity_of_move g e pos oldc s hfind heq hcell]
        have hmem_s : (oldc, s) ∈ g.grid := alistFind_mem hcell
        have hsnd : s.Nodup := h.cellsNodup (oldc, s) hmem_s
        by_cases hempty : setErase s e = []
        · rw [if_pos hempty]
          refine gridInv_insert_step _ _ _ _ (keysNodup_alistErase oldc h.gridNodup)
            ?_ ?_ ?_ ?_ ?_
          · intro cs hcs
            exact h.cellsNonempty cs ((mem_alistErase h.gridNodup).mp hcs).1
          · intro cs hcs
            exact h.cellsNodup cs ((mem_alistErase h.gridNodup).mp hcs).1
          · intro cs hcs x hx
            exact h.memAssoc cs ((mem_alistErase h.gridNodup).mp hcs).1 x hx
          · intro cs hcs hecs
            obtain ⟨hcs', hkey⟩ := (mem_alistErase h.gridNodup).mp hcs
            have := h.memAssoc cs hcs' e hecs
            rw [hfind] at this
            exact hkey (by simpa using this.symm)
          · intro x c' hxe hx
            obtain ⟨s2, hfind2, hxs2⟩ := h.assocMem x c' hx
            by_cases hc : c' = oldc
            · subst hc
              rw [hcell] at hfind2
              obtain rfl : s = s2 := by simpa using hfind2
              have : x ∈ setErase s e := (mem_setErase hsnd).mpr ⟨hxs2, hxe⟩
              rw [hempty] at this
              simp at this
            · exact ⟨s2, by rw [alistFind_erase_ne g.grid hc]; exact hfind2, hxs2⟩
        · rw [if_neg hempty]
          refine gridInv_insert_step _ _ _ _
            (keysNodup_alistInsert oldc _ h.gridNodup) ?_ ?_ ?_ ?_ ?_
          · intro cs hcs
            rcases (mem_alistInsert h.gridNodup).mp hcs with rfl | ⟨hmem, _⟩
            · exact hempty
            · exact h.cellsNonempty cs hmem
          · intro cs hcs
            rcases (mem_alistInsert h.gridNodup).mp hcs with rfl | ⟨hmem, _⟩
            · exact nodup_setErase e hsnd
            · exact h.cellsNodup cs hmem
          · intro cs hcs x hx
            rcases (mem_alistInsert h.gridNodup).mp hcs with rfl | ⟨hmem, _⟩
            · obtain ⟨hxs, _⟩ := (mem_setErase hsnd).mp hx
              exact h.memAssoc (oldc, s) hmem_s x hxs
            · exact h.memAssoc cs hmem x hx
          · intro cs hcs hecs
            rcases (mem_alistInsert h.gridNodup).mp hcs with rfl | ⟨hmem, hkey⟩
            · exact ((mem_setErase hsnd).mp hecs).2 rfl
            · have := h.memAssoc cs hmem e hecs
              rw [hfind] at this
              exact hkey (by simpa using this.symm)
          · intro x c' hxe hx
            obtain ⟨s2, hfind2, hxs2⟩ := h.assocMem x c' hx
            by_cases hc : c' = oldc
            · subst hc
              rw [hcell] at hfind2
              obtain rfl : s = s2 := by simpa using hfind2
              refine ⟨setErase s e, ?_, (mem_setErase hsnd).mpr ⟨hxs2, hxe⟩⟩
              exact alistFind_insert_self g.grid _ _
            · exact ⟨s2, by rw [alistFind_insert_ne g.grid _ hc]; exact hfind2, hxs2⟩

/-- After `update_entity`, the entity is associated to the cell of its
position (no invariant needed). -/
theorem update_entity_assoc_self (g : CacheGrid) (e : ℕ) (pos : Vec2) :
    alistFind (g.update_entity e pos).associations e = some (cellOf pos) := by
  cases hfind : alistFind g.associations e with
  | none =>
    rw [update_entity_of_none g e pos hfind]
    exact alistFind_insert_self _ _ _
  | some oldc =>
    by_cases heq : oldc = cellOf pos
    · subst heq
      rw [update_entity_of_same g e pos hfind]
      exact hfind
    · cases hcell : alistFind g.grid oldc with
      | none =>
        rw [update_entity_of_move_missing g e pos oldc hfind heq hcell]
        exact alistFind_insert_self _ _ _
      | some s =>
        rw [update_entity_of_move g e pos oldc s hfind heq hcell]
        exact alistFind_insert_self _ _ _

/-- `update_entity` leaves the associations of other entities unchanged. -/
theorem update_entity_assoc_ne (g : CacheGrid) {e e' : ℕ} (pos : Vec2)
    (h : e' ≠ e) :
    alistFind (g.update_entity e pos).associations e'
      = alistFind g.associations e' := by
  cases hfind : alistFind g.associations e with
  | none =>
    rw [update_entity_of_none g e pos hfind]
    exact alistFind_insert_ne _ _ h
  | some oldc =>
    by_cases heq : oldc = cellOf pos
    · subst heq
      rw [update_entity_of_same g e pos hfind]
    · cases hcell : alistFind g.grid oldc with
      | none =>
        rw [update_entity_of_move_missing g e pos oldc hfind heq hcell]
        exact alistFind_insert_ne _ _ h
      | some s =>
        rw [update_entity_of_move g e pos oldc s hfind heq hcell]
        exact alistFind_insert_ne _ _ h

theorem gridInv_foldl (l : List (ℕ × Vec2)) (g : CacheGrid) (h : GridInv g) :
    GridInv (l.foldl (fun g ep => g.update_entity ep.1 ep.2) g) := by
  induction l generalizing g with
  | nil => exact h
  | cons ep rest ih => exact ih _ (gridInv_update _ _ _ h)

/-- The registration pass always yields a well-formed index. -/
theorem gridInv_buildGrid (l : List (ℕ × Vec2)) : GridInv (buildGrid l) :=
  gridInv_foldl l _ gridInv_empty

theorem foldl_assoc_preserved (l : List (ℕ × Vec2)) (g : CacheGrid) (e : ℕ)
    (h : e ∉ l.map Prod.fst) :
    alistFind ((l.foldl (fun g ep => g.update_entity ep.1 ep.2) g).associations) e
      = alistFind g.associations e := by
  induction l generalizing g with
  | nil => rfl
  | cons ep rest ih =>
    simp only [List.map_cons, List.mem_cons] at h
    push_neg at h
    rw [List.foldl_cons, ih _ h.2, update_entity_assoc_ne g ep.2 h.1]

theorem buildGrid_assoc_aux (l : List (ℕ × Vec2)) (g : CacheGrid)
    (hnodup : (l.map Prod.fst).Nodup) (e : ℕ) (q : Vec2) (hmem : (e, q) ∈ l) :
    alistFind ((l.foldl (fun g ep => g.update_entity ep.1 ep.2) g).associations) e
      = some (cellOf q) := by
  induction l generalizing g with
  | nil => simp at hmem
  | cons ep rest ih =>
    simp only [List.map_cons, List.nodup_cons] at hnodup
    rcases List.mem_cons.mp hmem with rfl | hmem'
    · rw [List.foldl_cons, foldl_assoc_preserved rest _ e hnodup.1]
      exact update_entity_assoc_self g e q
    · exact ih _ hnodup.2 hmem'

/-- In the index built from a duplicate-free registration list, every
registered entity is associated to the cell of its registered position. -/
theorem buildGrid_assoc (l : List (ℕ × Vec2))
    (hnodup : (l.map Prod.fst).Nodup) (e : ℕ) (q : Vec2) (hmem : (e, q) ∈ l) :
    alistFind (buildGrid l).associations e = some (cellOf q) :=
  buildGrid_assoc_aux l CacheGrid.empty hnodup e q hmem

/-- In the built index, every registered entity sits in the grid cell of its
registered position. -/
theorem buildGrid_mem_cell (l : List (ℕ × Vec2))
    (hnodup : (l.map Prod.fst).Nodup) (e : ℕ) (q : Vec2) (hmem : (e, q) ∈ l) :
    ∃ s, alistFind (buildGrid l).grid (cellOf q) = some s ∧ e ∈ s :=
  (gridInv_buildGrid l).assocMem e _ (buildGrid_assoc l hnodup e q hmem)

/-! Arithmetic facts about the cell-index computations. -/

theorem truncQ_le_ceil (q : ℚ) : truncQ q ≤ ⌈q⌉ := by
  unfold truncQ
  by_cases h : 0 ≤ q
  · rw [if_pos h]
    exact Int.floor_le_ceil q
  · rw [if_neg h]

theorem floor_le_truncQ (q : ℚ) : ⌊q⌋ ≤ truncQ q := by
  unfold truncQ
  by_cases h : 0 ≤ q
  · rw [if_pos h]
  · rw [if_neg h]
    exact Int.floor_le_ceil q

theorem truncQ_mono {a b : ℚ} (h : a ≤ b) : truncQ a ≤ truncQ b := by
  unfold truncQ
  by_cases ha : 0 ≤ a
  · rw [if_pos ha, if_pos (le_trans ha h)]
    exact Int.floor_mono h
  · rw [if_neg ha]
    by_cases hb : 0 ≤ b
    · rw [if_pos hb]
      calc ⌈a⌉ ≤ 0 := Int.ceil_le.mpr (by exact_mod_cast le_of_not_le ha)
        _ ≤ ⌊b⌋ := Int.le_floor.mpr (by exact_mod_cast hb)
    · rw [if_neg hb]
      exact Int.ceil_mono h

theorem truncQ_add_le {a b : ℚ} (hb : 0 ≤ b) :
    truncQ (a + b) ≤ truncQ a + ⌈b⌉ := by
  have hceil : b ≤ (⌈b⌉ : ℚ) := Int.le_ceil b
  unfold truncQ
  by_cases ha : 0 ≤ a
  · rw [if_pos (by linarith), if_pos ha]
    calc ⌊a + b⌋ ≤ ⌊a + (⌈b⌉ : ℚ)⌋ := Int.floor_mono (by linarith)
      _ = ⌊a⌋ + ⌈b⌉ := Int.floor_add_int a ⌈b⌉
  · rw [if_neg ha]
    by_cases hab : 0 ≤ a + b
    · rw [if_pos hab]
      have h1 : ⌊a + b⌋ ≤ ⌊a⌋ + ⌈b⌉ := by
        calc ⌊a + b⌋ ≤ ⌊a + (⌈b⌉ : ℚ)⌋ := Int.floor_mono (by linarith)
          _ = ⌊a⌋ + ⌈b⌉ := Int.floor_add_int a ⌈b⌉
      have h2 : ⌊a⌋ ≤ ⌈a⌉ := Int.floor_le_ceil a
      omega
    · rw [if_neg hab]
      calc ⌈a + b⌉ ≤ ⌈a + (⌈b⌉ : ℚ)⌉ := Int.ceil_mono (by linarith)
        _ = ⌈a⌉ + ⌈b⌉ := Int.ceil_add_int a ⌈b⌉

theorem truncQ_le_of_le {q : ℚ} {n : ℤ} (h : q ≤ (n : ℚ)) : truncQ q ≤ n :=
  le_trans (truncQ_le_ceil q) (Int.ceil_le.mpr h)

theorem le_truncQ_of_le {q : ℚ} {n : ℤ} (h : (n : ℚ) ≤ q) : n ≤ truncQ q :=
  le_trans (Int.le_floor.mpr h) (floor_le_truncQ q)

theorem satI8_eq_self {z : ℤ} (h1 : -128 ≤ z) (h2 : z ≤ 127) : satI8 z = z := by
  unfold satI8
  rw [min_eq_right h2, max_eq_right h1]

theorem wrap8_eq_self {z : ℤ} (h1 : -128 ≤ z) (h2 : z ≤ 127) : wrap8 z = z := by
  unfold wrap8
  rw [Int.emod_eq_of_lt (by omega) (by omega)]
  omega

/-- A point within Euclidean distance `r` of `p` is within `r` of `p` on
each axis separately. -/
theorem sqDist_axis_bounds {q p : Vec2} {r : ℚ} (hr : 0 ≤ r)
    (h : sqDist q p ≤ r * r) : |q.1 - p.1| ≤ r ∧ |q.2 - p.2| ≤ r := by
  unfold sqDist at h
  constructor <;> rw [abs_le] <;> constructor
  · nlinarith [mul_self_nonneg (q.2 - p.2), mul_self_nonneg (q.1 - p.1 + r)]
  · nlinarith [mul_self_nonneg (q.2 - p.2), mul_self_nonneg (q.1 - p.1 - r)]
  · nlinarith [mul_self_nonneg (q.1 - p.1), mul_self_nonneg (q.2 - p.2 + r)]
  · nlinarith [mul_self_nonneg (q.1 - p.1), mul_self_nonneg (q.2 - p.2 - r)]

/-- Per-axis coverage of the query rectangle in the saturation- and
overflow-free regime: for coordinates within 1000 and radii within 100, the
cell index of a point within `r` of the query point on this axis lies
between the rectangle's begin and end indices. -/
theorem axis_cover {x px r : ℚ} (hx : |x| ≤ 1000) (hp : |px| ≤ 1000)
    (hr0 : 0 ≤ r) (hr : r ≤ 100) (hax : |x - px| ≤ r) :
    satI8 (truncQ ((px - r) / 20)) ≤ satI8 (truncQ (x / 20))
  ∧ satI8 (truncQ (x / 20))
      ≤ wrap8 (satI8 (truncQ ((px - r) / 20)) + satI8 ⌈r * 2 / 20⌉) := by
  obtain ⟨hx1, hx2⟩ := abs_le.mp hx
  obtain ⟨hp1, hp2⟩ := abs_le.mp hp
  obtain ⟨ha1, ha2⟩ := abs_le.mp hax
  have hc_lo : (-50 : ℤ) ≤ truncQ (x / 20) :=
    le_truncQ_of_le (by push_cast; linarith)
  have hc_hi : truncQ (x / 20) ≤ (50 : ℤ) :=
    truncQ_le_of_le (by push_cast; linarith)
  have hb_lo : (-55 : ℤ) ≤ truncQ ((px - r) / 20) :=
    le_truncQ_of_le (by push_cast; linarith)
  have hb_hi : truncQ ((px - r) / 20) ≤ (50 : ℤ) :=
    truncQ_le_of_le (by push_cast; linarith)
  have hs_lo : (0 : ℤ) ≤ ⌈r * 2 / 20⌉ := Int.ceil_nonneg (by linarith)
  have hs_hi : ⌈r * 2 / 20⌉ ≤ (10 : ℤ) := Int.ceil_le.mpr (by push_cast; linarith)
  rw [satI8_eq_self (by omega) (by omega), satI8_eq_self (by omega) (by omega),
    satI8_eq_self (by omega) (by omega), wrap8_eq_self (by omega) (by omega)]
  constructor
  · exact truncQ_mono (by linarith)
  · calc truncQ (x / 20) ≤ truncQ ((px - r) / 20 + r * 2 / 20) :=
        truncQ_mono (by linarith)
      _ ≤ truncQ ((px - r) / 20) + ⌈r * 2 / 20⌉ := truncQ_add_le (by linarith)

/-- Coverage of the spatial query in the saturation- and overflow-free
regime: if all registered positions and the query point have coordinates of
magnitude at most 1000 and the radius is between 0 and 100, then every
registered entity within Euclidean distance `radius` of the query point is
returned by `get_nearby_entities`. -/
theorem mem_get_nearby_of_registered
    (l : List (ℕ × Vec2)) (hnodup : (l.map Prod.fst).Nodup)
    (hbounds : ∀ ep ∈ l, |ep.2.1| ≤ 1000 ∧ |ep.2.2| ≤ 1000)
    (p : Vec2) (hp1 : |p.1| ≤ 1000) (hp2 : |p.2| ≤ 1000)
    (r : ℚ) (hr0 : 0 ≤ r) (hr : r ≤ 100)
    (e : ℕ) (q : Vec2) (hmem : (e, q) ∈ l)
    (hdist : sqDist q p ≤ r * r) :
    e ∈ (buildGrid l).get_nearby_entities p r := by
  obtain ⟨hq1, hq2⟩ := hbounds (e, q) hmem
  obtain ⟨hax1, hax2⟩ := sqDist_axis_bounds hr0 hdist
  have hres : ((CHUNK_RESOLUTION : ℕ) : ℚ) = 20 := by norm_num [CHUNK_RESOLUTION]
  obtain ⟨s, hfind, hes⟩ := buildGrid_mem_cell l hnodup e q hmem
  have hcoverI := axis_cover hq2 hp2 hr0 hr hax2
  have hcoverJ := axis_cover hq1 hp1 hr0 hr hax1
  unfold CacheGrid.get_nearby_entities
  refine mem_listJoinMap.mpr ⟨cellI q, ?_, ?_⟩
  · rw [mem_intRange]
    simp only [queryIBegin, queryIEnd, querySpan, cellI, hres]
    exact hcoverI
  · refine mem_listJoinMap.mpr ⟨cellJ q, ?_, ?_⟩
    · rw [mem_intRange]
      simp only [queryJBegin, queryJEnd, querySpan, cellJ, hres]
      exact hcoverJ
    · have : (cellI q, cellJ q) = cellOf q := rfl
      rw [this, hfind]
      exact hes

set_option maxRecDepth 100000 in
/-- C1, counterexample: the claim fails as stated for unrestricted query
points and radii.  The entity registered at `(0, 5000)` is saturated into
grid row 127 (`5000 / 20 = 250` clamped by the `as i8` cast), while the
query from `(0, 2400)` with radius `2600` scans rows `-10..117` and columns
`-128..-1` (the row span `ceil(2*2600/20) = 260` itself saturates to 127),
so the entity at exact distance `2600 = r` is not returned: a false
negative.  No `i8` addition overflows here, so this is independent of the
release/debug overflow semantics. -/
theorem get_nearby_entities_false_negative :
    (0 : ℚ) ≤ 2600
  ∧ sqDist ((0 : ℚ), (5000 : ℚ)) ((0 : ℚ), (2400 : ℚ)) ≤ 2600 * 2600
  ∧ 0 ∉ (buildGrid [(0, ((0 : ℚ), (5000 : ℚ)))]).get_nearby_entities
      ((0 : ℚ), (2400 : ℚ)) 2600 := by
  refine ⟨by norm_num, ?_, ?_⟩
  · with_unfolding_all decide
  · with_unfolding_all decide

/-- C1, amended: in the saturation- and overflow-free regime of the `i8`
cell arithmetic — all registered coordinates and the query point of
magnitude at most 1000 and radius between 0 and 100 — the query returns
every registered entity within Euclidean distance `r` of the query point:
no false negatives. -/
theorem get_nearby_entities_no_false_negatives
    (agents : List (ℕ × Vec2)) (hnodup : (agents.map Prod.fst).Nodup)
    (hbounds : ∀ ep ∈ agents, |ep.2.1| ≤ 1000 ∧ |ep.2.2| ≤ 1000)
    (p : Vec2) (hp : |p.1| ≤ 1000 ∧ |p.2| ≤ 1000)
    (r : ℚ) (hr : 0 ≤ r ∧ r ≤ 100)
    (e : ℕ) (q : Vec2) (hmem : (e, q) ∈ agents)
    (hdist : sqDist q p ≤ r * r) :
    e ∈ (buildGrid agents).get_nearby_entities p r :=
  mem_get_nearby_of_registered agents hnodup hbounds p hp.1 hp.2 r hr.1 hr.2
    e q hmem hdist

/-- C1, witness: the amended theorem applied at a concrete input. -/
theorem get_nearby_entities_no_false_negatives_witness :
    0 ∈ (buildGrid [(0, ((0 : ℚ), (0 : ℚ)))]).get_nearby_entities
      ((3 : ℚ), (4 : ℚ)) 5 :=
  get_nearby_entities_no_false_negatives [(0, ((0 : ℚ), (0 : ℚ)))]
    (by simp) (by intro ep hep; simp at hep; rw [hep]; norm_num)
    ((3 : ℚ), (4 : ℚ)) (by norm_num) 5 (by norm_num) 0 ((0 : ℚ), (0 : ℚ))
    (by simp) (by norm_num [sqDist])

/-- C2, counterexample: for the position `(-10, -10)` the code buckets the
entity into cell `(0, 0)` — the Rust `as i8` cast truncates toward zero —
while the claimed floor rule gives cell `(-1, -1)`. -/
theorem update_entity_cell_not_floor :
    alistFind ((CacheGrid.empty.update_entity 0 ((-10 : ℚ), (-10 : ℚ))).associations) 0
      = some (0, 0)
  ∧ (⌊((-10 : ℚ) / 20)⌋, ⌊((-10 : ℚ) / 20)⌋) = ((-1 : ℤ), (-1 : ℤ))
  ∧ ((0 : ℤ), (0 : ℤ)) ≠ ((-1 : ℤ), (-1 : ℤ)) := by
  refine ⟨?_, ?_, by decide⟩ <;> with_unfolding_all decide

/-- C2, amended: on every well-formed index, `update_entity(id, pos)` stores
`id` in the grid cell `(i, j) = (sat(trunc(pos.y / resolution)),
sat(trunc(pos.x / resolution)))`, where `trunc` rounds toward zero and `sat`
clamps into the `i8` range — the semantics of the Rust `as i8` cast — and
records that cell in `associations`. -/
theorem update_entity_stores_trunc_cell (g : CacheGrid) (h : GridInv g)
    (e : ℕ) (pos : Vec2) :
    alistFind (g.update_entity e pos).associations e = some (cellOf pos)
  ∧ ∃ s, alistFind (g.update_entity e pos).grid (cellOf pos) = some s ∧ e ∈ s :=
  ⟨update_entity_assoc_self g e pos,
   (gridInv_update g e pos h).assocMem e _ (update_entity_assoc_self g e pos)⟩

/-- C2, witness: the amended theorem applied at the empty index and a
negative position. -/
theorem update_entity_stores_trunc_cell_witness :
    alistFind ((CacheGrid.empty.update_entity 7 ((-10 : ℚ), (-30 : ℚ))).associations) 7
      = some (cellOf ((-10 : ℚ), (-30 : ℚ)))
  ∧ ∃ s, alistFind ((CacheGrid.empty.update_entity 7 ((-10 : ℚ), (-30 : ℚ))).grid)
      (cellOf ((-10 : ℚ), (-30 : ℚ))) = some s ∧ 7 ∈ s :=
  update_entity_stores_trunc_cell CacheGrid.empty gridInv_empty 7 _

/-- C7: after any finite sequence of `update_entity` calls starting from the
empty index, the grid's keys are duplicate-free, no remaining cell has an
empty entity set, and every associated entity appears in the cell named by
its association and in no other cell. -/
theorem buildGrid_invariant (l : List (ℕ × Vec2)) :
    keysNodup (buildGrid l).grid
  ∧ (∀ cs ∈ (buildGrid l).grid, cs.2 ≠ [])
  ∧ ∀ e c, alistFind (buildGrid l).associations e = some c →
      (∃ s, (c, s) ∈ (buildGrid l).grid ∧ e ∈ s)
    ∧ ∀ c' s', (c', s') ∈ (buildGrid l).grid → e ∈ s' → c' = c := by
  have h := gridInv_buildGrid l
  refine ⟨h.gridNodup, h.cellsNonempty, fun e c hec => ⟨?_, ?_⟩⟩
  · obtain ⟨s, hfind, hes⟩ := h.assocMem e c hec
    exact ⟨s, alistFind_mem hfind, hes⟩
  · intro c' s' hmem hes
    have h2 := h.memAssoc (c', s') hmem e hes
    rw [hec] at h2
    exact (Option.some_inj.mp h2).symm

/-- C7, witness: the invariant theorem applied at a concrete two-step
registration. -/
theorem buildGrid_invariant_witness :
    ∃ s, (((0 : ℤ), (0 : ℤ)), s)
        ∈ (buildGrid [(0, ((0 : ℚ), (0 : ℚ))), (1, ((30 : ℚ), (0 : ℚ)))]).grid
      ∧ 0 ∈ s :=
  ((buildGrid_invariant [(0, ((0 : ℚ), (0 : ℚ))), (1, ((30 : ℚ), (0 : ℚ)))]).2.2
    0 (0, 0) (by with_unfolding_all decide)).1

/-- C8: calling `update_entity(id, pos)` twice in succession with the same
position leaves the whole index — grid and associations — exactly as it was
after the first call, for every starting index state. -/
theorem update_entity_idempotent (g : CacheGrid) (e : ℕ) (pos : Vec2) :
    (g.update_entity e pos).update_entity e pos = g.update_entity e pos :=
  update_entity_of_same _ e pos (update_entity_assoc_self g e pos)

/-- C9: for a viewport at least one pixel wide and tall (the wrap offset of
the source is `1.0`), the wrap step sends a coordinate at or beyond
`+extent` to `-extent + 1`, a coordinate at or beyond `-extent` to
`+extent - 1`, and leaves every wrapped position within `[-extent, extent]`
on both axes, where the extent is half the viewport dimension. -/
theorem wrap_borders_containment (w h : ℚ) (hw : 1 ≤ w) (hh : 1 ≤ h)
    (p : Vec2) :
    (-w / 2 ≤ (wrapBorders w h p).1 ∧ (wrapBorders w h p).1 ≤ w / 2
      ∧ -h / 2 ≤ (wrapBorders w h p).2 ∧ (wrapBorders w h p).2 ≤ h / 2)
  ∧ (p.1 ≥ w / 2 → (wrapBorders w h p).1 = -w / 2 + 1)
  ∧ (p.1 ≤ -w / 2 → (wrapBorders w h p).1 = w / 2 - 1)
  ∧ (p.2 ≥ h / 2 → (wrapBorders w h p).2 = -h / 2 + 1)
  ∧ (p.2 ≤ -h / 2 → (wrapBorders w h p).2 = h / 2 - 1) := by
  simp only [wrapBorders]
  constructor
  · refine ⟨?_, ?_, ?_, ?_⟩ <;> split_ifs <;> linarith
  · refine ⟨?_, ?_, ?_, ?_⟩ <;> intro h1 <;> split_ifs <;>
      first
        | rfl
        | linarith

/-- C9, witness: the containment theorem applied at a concrete viewport and
an out-of-bounds position. -/
theorem wrap_borders_containment_witness :
    wrapBorders 200 100 ((150 : ℚ), (-70 : ℚ))
      = ((-200 : ℚ) / 2 + 1, (100 : ℚ) / 2 - 1) := by
  have hcon := wrap_borders_containment 200 100 (by norm_num) (by norm_num)
    ((150 : ℚ), (-70 : ℚ))
  have h1 := hcon.2.1 (by norm_num)
  have h2 := hcon.2.2.2.2 (by norm_num)
  rw [Prod.ext_iff]
  exact ⟨h1, h2⟩

/-- C10: applying a force event whose target entity is not among the live
creatures is a complete no-op — the resulting world (in particular the
heading of every existing agent) is exactly what it would be had the event
never been queued, wherever the event sits in the drained order, for every
normalization function and time step. -/
theorem apply_force_missing_entity_noop (norm : Vec2 → Vec2) (dt : ℚ)
    (pre post : List ApplyForceEvent) (ghost : ApplyForceEvent)
    (world : List Creature) (h : ∀ c ∈ world, c.id ≠ ghost.entity) :
    applyForceEvents norm dt (pre ++ ghost :: post) world
      = applyForceEvents norm dt (pre ++ post) world := by
  unfold applyForceEvents
  rw [List.foldl_append, List.foldl_append, List.foldl_cons]
  have hids : ∀ (evs : List ApplyForceEvent) (w : List Creature),
      w.map (fun c => c.id)
        = (evs.foldl (fun w ev =>
            w.map fun c =>
              if c.id = ev.entity then
                { c with dir := lerpDir norm c.dir ev.force (ev.factor * dt) }
              else c) w).map (fun c => c.id) := by
    intro evs
    induction evs with
    | nil => intro w; rfl
    | cons ev rest ih =>
      intro w
      rw [List.foldl_cons, ← ih, List.map_map]
      apply List.map_congr_left
      intro c _
      by_cases hc : c.id = ev.entity <;> simp [hc]
  have hpre : ∀ c ∈ pre.foldl (fun w ev =>
      w.map fun c =>
        if c.id = ev.entity then
          { c with dir := lerpDir norm c.dir ev.force (ev.factor * dt) }
        else c) world, c.id ≠ ghost.entity := by
    intro c hc
    have hmap := hids pre world
    have : c.id ∈ world.map (fun c => c.id) := by
      rw [hmap]
      exact List.mem_map_of_mem _ hc
    obtain ⟨c0, hc0, hweq⟩ := List.mem_map.mp this
    rw [← hweq]
    exact h c0 hc0
  congr 1
  have : ∀ c ∈ pre.foldl (fun w ev =>
      w.map fun c =>
        if c.id = ev.entity then
          { c with dir := lerpDir norm c.dir ev.force (ev.factor * dt) }
        else c) world,
      (if c.id = ghost.entity then
        { c with dir := lerpDir norm c.dir ghost.force (ghost.factor * dt) }
      else c) = c := by
    intro c hc
    rw [if_neg (hpre c hc)]
  rw [List.map_congr_left this]
  simp

/-- C10, witness: the no-op theorem applied at a concrete world and a ghost
event targeting a despawned entity id. -/
theorem apply_force_missing_entity_noop_witness :
    applyForceEvents (fun v => v) 1
      [⟨5, ((1 : ℚ), (0 : ℚ)), 2⟩] [⟨0, (1, 0), (0, 0), none, CreatureType.A⟩]
      = applyForceEvents (fun v => v) 1 [] [⟨0, (1, 0), (0, 0), none, CreatureType.A⟩] :=
  apply_force_missing_entity_noop (fun v => v) 1 [] []
    ⟨5, ((1 : ℚ), (0 : ℚ)), 2⟩ [⟨0, (1, 0), (0, 0), none, CreatureType.A⟩]
    (by intro c hc; simp at hc; rw [hc]; decide)

/-! Facts about the flocking scan. -/

theorem flockAccumVision_events (fa : Factors) (a b : Creature) (st : FlockState) :
    (flockAccumVision fa a b st).events = st.events := by
  unfold flockAccumVision
  split_ifs <;> rfl

theorem flockAccumHalf_events (fa : Factors) (a b : Creature) (st : FlockState) :
    (flockAccumHalf fa a b st).events = st.events := by
  unfold flockAccumHalf
  split_ifs <;> rfl

theorem flockCollision_events_grow (fa : Factors) (a b : Creature)
    (st : FlockState) :
    ∃ tail, (flockCollision fa a b st).events = st.events ++ tail := by
  unfold flockCollision
  cases a.customSize with
  | none => exact ⟨[], by simp⟩
  | some size =>
    dsimp only
    by_cases hd : distLE a.pos b.pos (size.1 * 2) = true
    · rw [if_pos hd]
      exact ⟨[⟨a.id, a.pos - b.pos, fa.collision_avoidance⟩], rfl⟩
    · rw [if_neg hd]
      exact ⟨[], by simp⟩

theorem flockStep_events_grow (factors : CreatureType → Factors)
    (world : List Creature) (a : Creature) (st : FlockState) (eb : ℕ) :
    ∃ tail, (flockStep factors world a st eb).events = st.events ++ tail := by
  unfold flockStep
  by_cases h1 : eb = a.id
  · rw [if_pos h1]
    exact ⟨[], by simp⟩
  rw [if_neg h1]
  cases creatureGet world eb with
  | none => exact ⟨[], by simp⟩
  | some b =>
    dsimp only
    by_cases h2 : a.ctype ≠ b.ctype
    · rw [if_pos h2]
      exact ⟨[], by simp⟩
    · rw [if_neg h2]
      obtain ⟨tail, htail⟩ := flockCollision_events_grow (factors a.ctype) a b
        (flockAccumHalf (factors a.ctype) a b
          (flockAccumVision (factors a.ctype) a b st))
      rw [htail, flockAccumHalf_events, flockAccumVision_events]
      exact ⟨tail, rfl⟩

theorem foldl_flockStep_events_mono (factors : CreatureType → Factors)
    (world : List Creature) (a : Creature) (l : List ℕ) (st : FlockState)
    {ev : ApplyForceEvent} (h : ev ∈ st.events) :
    ev ∈ (l.foldl (flockStep factors world a) st).events := by
  induction l generalizing st with
  | nil => exact h
  | cons x xs ih =>
    rw [List.foldl_cons]
    apply ih
    obtain ⟨tail, htail⟩ := flockStep_events_grow factors world a st x
    rw [htail]
    exact List.mem_append_left _ h

/-- When the candidate is a distinct live same-species creature within twice
the sprite-size radius, the flocking step appends the collision-avoidance
intent. -/
theorem flockStep_collision_eq (factors : CreatureType → Factors)
    (world : List Creature) (a b : Creature) (s : Vec2) (st : FlockState)
    (hne : b.id ≠ a.id) (hfind : creatureGet world b.id = some b)
    (hty : b.ctype = a.ctype) (hsize : a.customSize = some s)
    (hdist : distLE a.pos b.pos (s.1 * 2) = true) :
    (flockStep factors world a st b.id).events
      = st.events ++ [⟨a.id, a.pos - b.pos, (factors a.ctype).collision_avoidance⟩] := by
  unfold flockStep
  rw [if_neg hne, hfind]
  dsimp only
  rw [if_neg (show ¬a.ctype ≠ b.ctype from by rw [hty]; simp)]
  unfold flockCollision
  rw [hsize]
  dsimp only
  rw [if_pos hdist]
  simp only [flockAccumHalf_events, flockAccumVision_events]

/-- C3, amended: in the per-agent neighbor scan, for every candidate `b`
distinct from `a` of the SAME species as `a`, when `a`'s sprite has a custom
size `s` and `distance(a, b) ≤ s.x * 2`, the collision-avoidance intent
`(a, a.position - b.position, Fa.collision_avoidance)` is emitted (the
recorded vector is the argument of the source's `normalize`).  A candidate
of a different species is filtered out before the collision check. -/
theorem flocking_collision_same_species (factors : CreatureType → Factors)
    (world : List Creature) (g : CacheGrid) (a b : Creature) (s : Vec2)
    (hcand : b.id ∈ g.get_nearby_entities a.pos (factors a.ctype).vision)
    (hne : b.id ≠ a.id)
    (hfind : creatureGet world b.id = some b)
    (hty : b.ctype = a.ctype)
    (hsize : a.customSize = some s)
    (hdist : distLE a.pos b.pos (s.1 * 2) = true) :
    (⟨a.id, a.pos - b.pos, (factors a.ctype).collision_avoidance⟩ : ApplyForceEvent)
      ∈ flockingScan factors world g a := by
  obtain ⟨l1, l2, hsplit⟩ := List.append_of_mem hcand
  unfold flockingScan
  apply List.mem_append_left
  apply List.mem_append_left
  rw [hsplit, List.foldl_append, List.foldl_cons]
  apply foldl_flockStep_events_mono
  rw [flockStep_collision_eq factors world a b s _ hne hfind hty hsize hdist]
  exact List.mem_append_right _ (List.mem_singleton_self _)

/-- Concrete species table for the collision-avoidance counterexample: no
predation relations, uniform weights. -/
def exFactorsC3 : CreatureType → Factors := fun _ =>
  { speed := 1, vision := 10, size := (4, 1), cohesion := 1, separation := 1,
    alignment := 1, collision_avoidance := 3, scare := 0, chase := 0,
    scared_of := fun _ => false, will_chase := fun _ => false }

/-- C3, counterexample: agent 0 (species A, sprite size `(4, 1)`) and agent 1
(species B) are 3 apart — within `size.x * 2 = 8` and within vision — and
agent 1 is a returned candidate, yet the flocking scan of agent 0 emits
nothing at all: the `type_a != type_b` filter of the source runs before the
collision-avoidance check, so a candidate of another species never triggers
it, contradicting the claimed any-species behavior. -/
theorem flocking_collision_other_species_skipped :
    (1 ∈ (buildGrid [(0, ((0 : ℚ), (0 : ℚ))), (1, ((3 : ℚ), (0 : ℚ)))]).get_nearby_entities
        ((0 : ℚ), (0 : ℚ)) (exFactorsC3 CreatureType.A).vision)
  ∧ distLE ((0 : ℚ), (0 : ℚ)) ((3 : ℚ), (0 : ℚ)) ((4 : ℚ) * 2) = true
  ∧ flockingScan exFactorsC3
      [⟨0, (1, 0), (0, 0), some (4, 1), CreatureType.A⟩,
       ⟨1, (1, 0), (3, 0), some (8, 4), CreatureType.B⟩]
      (buildGrid [(0, ((0 : ℚ), (0 : ℚ))), (1, ((3 : ℚ), (0 : ℚ)))])
      ⟨0, (1, 0), (0, 0), some (4, 1), CreatureType.A⟩ = [] := by
  refine ⟨?_, ?_, ?_⟩ <;> with_unfolding_all decide

/-- C3, witness: the amended theorem applied to two same-species agents 3
apart with sprite size `(4, 1)`. -/
theorem flocking_collision_same_species_witness :
    (⟨0, ((0 : ℚ), (0 : ℚ)) - ((3 : ℚ), (0 : ℚ)),
        (exFactorsC3 CreatureType.A).collision_avoidance⟩ : ApplyForceEvent)
      ∈ flockingScan exFactorsC3
        [⟨0, (1, 0), (0, 0), some (4, 1), CreatureType.A⟩,
         ⟨1, (0, 1), (3, 0), some (4, 1), CreatureType.A⟩]
        (buildGrid [(0, ((0 : ℚ), (0 : ℚ))), (1, ((3 : ℚ), (0 : ℚ)))])
        ⟨0, (1, 0), (0, 0), some (4, 1), CreatureType.A⟩ :=
  flocking_collision_same_species exFactorsC3
    [⟨0, (1, 0), (0, 0), some (4, 1), CreatureType.A⟩,
     ⟨1, (0, 1), (3, 0), some (4, 1), CreatureType.A⟩]
    (buildGrid [(0, ((0 : ℚ), (0 : ℚ))), (1, ((3 : ℚ), (0 : ℚ)))])
    ⟨0, (1, 0), (0, 0), some (4, 1), CreatureType.A⟩
    ⟨1, (0, 1), (3, 0), some (4, 1), CreatureType.A⟩ (4, 1)
    (by with_unfolding_all decide) (by decide) (by with_unfolding_all decide)
    rfl rfl (by with_unfolding_all decide)

/-- C6: the degenerate zero-length normalization is NOT skipped by the code.
Two same-species agents at the identical position `(5, 5)` make agent 0's
flocking scan emit a collision-avoidance intent whose recorded force vector
— the argument the source passes to `normalize` — is the zero vector
(`glam`'s `normalize` yields NaN components there), where the claim requires
the component to be skipped.  The separation intent of the same scan
likewise records the zero vector. -/
theorem flocking_emits_zero_vector_normalization :
    ((⟨0, ((0 : ℚ), (0 : ℚ)), (exFactorsC3 CreatureType.A).collision_avoidance⟩ :
        ApplyForceEvent)
      ∈ flockingScan exFactorsC3
        [⟨0, (1, 0), (5, 5), some (4, 1), CreatureType.A⟩,
         ⟨1, (0, 1), (5, 5), some (4, 1), CreatureType.A⟩]
        (buildGrid [(0, ((5 : ℚ), (5 : ℚ))), (1, ((5 : ℚ), (5 : ℚ)))])
        ⟨0, (1, 0), (5, 5), some (4, 1), CreatureType.A⟩)
  ∧ ((⟨0, ((0 : ℚ), (0 : ℚ)), (exFactorsC3 CreatureType.A).separation⟩ :
        ApplyForceEvent)
      ∈ flockingScan exFactorsC3
        [⟨0, (1, 0), (5, 5), some (4, 1), CreatureType.A⟩,
         ⟨1, (0, 1), (5, 5), some (4, 1), CreatureType.A⟩]
        (buildGrid [(0, ((5 : ℚ), (5 : ℚ))), (1, ((5 : ℚ), (5 : ℚ)))])
        ⟨0, (1, 0), (5, 5), some (4, 1), CreatureType.A⟩) := by
  constructor <;> with_unfolding_all decide

/-! Facts about the scare scan. -/

theorem sqDist_comm (u v : Vec2) : sqDist u v = sqDist v u := by
  unfold sqDist
  ring

/-- In a world with duplicate-free entity ids, the live-creature query finds
each member by its id. -/
theorem creatureGet_of_nodup (world : List Creature)
    (hnodup : (world.map (fun c => c.id)).Nodup)
    {b : Creature} (hb : b ∈ world) : creatureGet world b.id = some b := by
  induction world with
  | nil => simp at hb
  | cons c rest ih =>
    simp only [List.map_cons, List.nodup_cons] at hnodup
    rcases List.mem_cons.mp hb with rfl | hb'
    · unfold creatureGet
      exact List.find?_cons_of_pos _ (by simp)
    · have hne : c.id ≠ b.id := by
        intro hcb
        exact hnodup.1 (hcb ▸ List.mem_map_of_mem (fun c => c.id) hb')
      unfold creatureGet
      rw [List.find?_cons_of_neg _ (by simp [hne])]
      exact ih hnodup.2 hb'

/-- Soundness of the flee scan: every emitted event comes from a live
candidate distinct from the agent, of a species the agent's own `scared_of`
set contains, within vision range. -/
theorem scareScan_sound (factors : CreatureType → Factors)
    (world : List Creature) (g : CacheGrid) (a : Creature) :
    ∀ ev ∈ scareScan factors world g a, ∃ b : Creature,
      b.id ∈ g.get_nearby_entities a.pos (factors a.ctype).vision
      ∧ b.id ≠ a.id
      ∧ creatureGet world b.id = some b
      ∧ (factors a.ctype).scared_of b.ctype = true
      ∧ distLE a.pos b.pos (factors a.ctype).vision = true
      ∧ ev = ⟨a.id, a.pos - b.pos, (factors a.ctype).scare⟩ := by
  intro ev hev
  unfold scareScan at hev
  obtain ⟨eb, hcand, hev⟩ := mem_listJoinMap.mp hev
  by_cases h1 : eb = a.id
  · rw [if_pos h1] at hev
    simp at hev
  rw [if_neg h1] at hev
  cases hfind : creatureGet world eb with
  | none =>
    rw [hfind] at hev
    simp at hev
  | some b =>
    rw [hfind] at hev
    dsimp only at hev
    by_cases h2 : (factors a.ctype).scared_of b.ctype = false
    · rw [if_pos h2] at hev
      simp at hev
    rw [if_neg h2] at hev
    by_cases h3 : distLE a.pos b.pos (factors a.ctype).vision = true
    · rw [if_pos h3] at hev
      have hb : b.id = eb := by simpa using List.find?_some hfind
      subst hb
      refine ⟨b, hcand, h1, hfind, ?_, h3, by simpa using hev⟩
      simpa using h2
    · rw [if_neg h3] at hev
      simp at hev

/-- Completeness of the flee scan in the overflow-free regime: a registered
pair of distinct agents within vision range, with the candidate's species in
the scanning agent's `scared_of` set, always produces the flee intent. -/
theorem scareScan_complete (factors : CreatureType → Factors)
    (world : List Creature) (a b : Creature)
    (hnodup : (world.map (fun c => c.id)).Nodup)
    (hbounds : ∀ c ∈ world, |c.pos.1| ≤ 1000 ∧ |c.pos.2| ≤ 1000)
    (hpa : |a.pos.1| ≤ 1000 ∧ |a.pos.2| ≤ 1000)
    (hvis : (factors a.ctype).vision ≤ 100)
    (hb : b ∈ world) (hne : b.id ≠ a.id)
    (hscared : (factors a.ctype).scared_of b.ctype = true)
    (hdist : distLE a.pos b.pos (factors a.ctype).vision = true) :
    (⟨a.id, a.pos - b.pos, (factors a.ctype).scare⟩ : ApplyForceEvent)
      ∈ scareScan factors world
          (buildGrid (world.map fun c => (c.id, c.pos))) a := by
  have hdist' := hdist
  simp only [distLE, Bool.and_eq_true, decide_eq_true_eq] at hdist'
  have hcand : b.id ∈ (buildGrid (world.map fun c => (c.id, c.pos))).get_nearby_entities
      a.pos (factors a.ctype).vision := by
    apply mem_get_nearby_of_registered (world.map fun c => (c.id, c.pos))
      (by simpa [Function.comp] using hnodup)
      (by
        intro ep hep
        obtain ⟨c, hc, rfl⟩ := List.mem_map.mp hep
        exact hbounds c hc)
      a.pos hpa.1 hpa.2 (factors a.ctype).vision hdist'.1 hvis b.id b.pos
      (List.mem_map_of_mem _ hb)
    rw [sqDist_comm]
    exact hdist'.2
  unfold scareScan
  refine mem_listJoinMap.mpr ⟨b.id, hcand, ?_⟩
  rw [if_neg hne, creatureGet_of_nodup world hnodup hb]
  dsimp only
  rw [if_neg (by rw [hscared]; simp), if_pos hdist]
  exact List.mem_singleton_self _

/-- C4, amended: the flee condition is decided by the scanning agent's OWN
`scared_of` set, not by the candidate's predator (`will_chase`) set.  Part
one (completeness, in the overflow-free regime of the spatial index, with
agents registered at their current positions): every registered pair of
distinct agents within `Fa.vision` whose candidate species lies in
`Fa.scared_of` yields the flee intent `(a, a.position - b.position,
Fa.scare)`.  Part two (soundness, any index): every emitted flee intent
comes from such a candidate. -/
theorem scare_flee_iff_scared_of (factors : CreatureType → Factors)
    (world : List Creature) :
    (∀ a b : Creature,
      (world.map (fun c => c.id)).Nodup →
      (∀ c ∈ world, |c.pos.1| ≤ 1000 ∧ |c.pos.2| ≤ 1000) →
      |a.pos.1| ≤ 1000 ∧ |a.pos.2| ≤ 1000 →
      (factors a.ctype).vision ≤ 100 →
      b ∈ world → b.id ≠ a.id →
      (factors a.ctype).scared_of b.ctype = true →
      distLE a.pos b.pos (factors a.ctype).vision = true →
      (⟨a.id, a.pos - b.pos, (factors a.ctype).scare⟩ : ApplyForceEvent)
        ∈ scareScan factors world
            (buildGrid (world.map fun c => (c.id, c.pos))) a)
  ∧ ∀ (g : CacheGrid) (a : Creature), ∀ ev ∈ scareScan factors world g a,
      ∃ b : Creature, b.id ≠ a.id ∧ creatureGet world b.id = some b
        ∧ (factors a.ctype).scared_of b.ctype = true
        ∧ distLE a.pos b.pos (factors a.ctype).vision = true
        ∧ ev = ⟨a.id, a.pos - b.pos, (factors a.ctype).scare⟩ := by
  constructor
  · intro a b h1 h2 h3 h4 h5 h6 h7 h8
    exact scareScan_complete factors world a b h1 h2 h3 h4 h5 h6 h7 h8
  · intro g a ev hev
    obtain ⟨b, _, hne, hfind, hscared, hdist, heq⟩ :=
      scareScan_sound factors world g a ev hev
    exact ⟨b, hne, hfind, hscared, hdist, heq⟩

/-- Species table where A is scared of B (and B hunts A), used by the C4
witness. -/
def exFactorsScare : CreatureType → Factors := fun t =>
  { speed := 1, vision := 10, size := (4, 1), cohesion := 1, separation := 1,
    alignment := 1, collision_avoidance := 3, scare := 5, chase := 0,
    scared_of := fun u => decide (t = CreatureType.A ∧ u = CreatureType.B),
    will_chase := fun u => decide (t = CreatureType.B ∧ u = CreatureType.A) }

/-- C4, witness: the completeness part applied to a prey agent 3 away from
its predator. -/
theorem scare_flee_iff_scared_of_witness :
    (⟨0, ((0 : ℚ), (0 : ℚ)) - ((3 : ℚ), (0 : ℚ)),
        (exFactorsScare CreatureType.A).scare⟩ : ApplyForceEvent)
      ∈ scareScan exFactorsScare
          [⟨0, (1, 0), (0, 0), none, CreatureType.A⟩,
           ⟨1, (1, 0), (3, 0), none, CreatureType.B⟩]
          (buildGrid (([⟨0, (1, 0), (0, 0), none, CreatureType.A⟩,
           ⟨1, (1, 0), (3, 0), none, CreatureType.B⟩] : List Creature).map
            fun c => (c.id, c.pos)))
          ⟨0, (1, 0), (0, 0), none, CreatureType.A⟩ :=
  (scare_flee_iff_scared_of exFactorsScare
      [⟨0, (1, 0), (0, 0), none, CreatureType.A⟩,
       ⟨1, (1, 0), (3, 0), none, CreatureType.B⟩]).1
    ⟨0, (1, 0), (0, 0), none, CreatureType.A⟩
    ⟨1, (1, 0), (3, 0), none, CreatureType.B⟩
    (by decide) (by intro c hc; fin_cases hc <;> constructor <;> norm_num)
    (by constructor <;> norm_num) (by norm_num [exFactorsScare])
    (by decide) (by decide) (by decide) (by with_unfolding_all decide)

/-- Species table realizing the C4 counterexample: B's predator set contains
A (the spec-level `a.species ∈ Fb.predator_of` holds), but A's `scared_of`
set is empty. -/
def exFactorsC4 : CreatureType → Factors := fun t =>
  { speed := 1, vision := 10, size := (4, 1), cohesion := 1, separation := 1,
    alignment := 1, collision_avoidance := 3, scare := 5, chase := 0,
    scared_of := fun _ => false,
    will_chase := fun u => decide (t = CreatureType.B ∧ u = CreatureType.A) }

/-- C4, counterexample: agent 0 (species A) is 3 away from agent 1 (species
B), within vision, and A is in B's predator (`will_chase`) set, so the claim
requires a flee intent for agent 0 — but the scare scan consults only
`Fa.scared_of`, which is empty here, and emits nothing. -/
theorem scare_not_driven_by_predator_set :
    ((exFactorsC4 CreatureType.B).will_chase CreatureType.A = true)
  ∧ distLE ((0 : ℚ), (0 : ℚ)) ((3 : ℚ), (0 : ℚ))
      (exFactorsC4 CreatureType.A).vision = true
  ∧ scareScan exFactorsC4
      [⟨0, (1, 0), (0, 0), none, CreatureType.A⟩,
       ⟨1, (1, 0), (3, 0), none, CreatureType.B⟩]
      (buildGrid [(0, ((0 : ℚ), (0 : ℚ))), (1, ((3 : ℚ), (0 : ℚ)))])
      ⟨0, (1, 0), (0, 0), none, CreatureType.A⟩ = [] := by
  refine ⟨by decide, ?_, ?_⟩ <;> with_unfolding_all decide

/-- Species table where every species hunts species A — including A itself —
used to exhibit the missing self-skip of `chase_system`. -/
def exFactorsC5 : CreatureType → Factors := fun _ =>
  { speed := 1, vision := 10, size := (4, 1), cohesion := 1, separation := 1,
    alignment := 1, collision_avoidance := 3, scare := 0, chase := 2,
    scared_of := fun _ => false,
    will_chase := fun u => decide (u = CreatureType.A) }

/-- C5: `chase_system` (the sequential variant) omits the
`entity_b == entity_a` skip that `parallel_chase_system` performs, so a lone
agent of a species that hunts its own species selects ITSELF as the nearest
chase target (distance 0) and emits a chase intent whose recorded
`normalize` argument is the zero vector; the parallel variant of the same
scan emits nothing, as the claim requires. -/
theorem chase_system_self_target :
    chaseScan exFactorsC5 [⟨0, (1, 0), (0, 0), none, CreatureType.A⟩]
      (buildGrid [(0, ((0 : ℚ), (0 : ℚ)))])
      ⟨0, (1, 0), (0, 0), none, CreatureType.A⟩
      = [⟨0, ((0 : ℚ), (0 : ℚ)), 2⟩]
  ∧ parallelChaseScan exFactorsC5 [⟨0, (1, 0), (0, 0), none, CreatureType.A⟩]
      (buildGrid [(0, ((0 : ℚ), (0 : ℚ)))])
      ⟨0, (1, 0), (0, 0), none, CreatureType.A⟩
      = [] := by
  constructor <;> with_unfolding_all decide
